import Mathlib

/-!
Verification development for the `use-sx` style compiler
(`src/control.tsx`).  The definitions below are a shallow embedding of the
TypeScript source: JavaScript objects become association lists that keep
insertion order (`objGet` / `objSet` / `objDelete` / `objAssign` mirror
property read, property write, `delete` and `Object.assign`), the mutable
output object of `mutableCompileSxProperty` becomes an explicitly threaded
value, and the strict-mode `TypeError` raised by writing a property on a
primitive becomes `Except.error`.  Caller-supplied theme functions, map
functions and selector resolvers are embedded as Lean functions; an event
trace records each invocation of a theme function or a map function so that
"is (not) invoked" claims are observable.

A second, store-based embedding (`mergeSxH`, `compileSxH`) models the same
code over an explicit heap of objects, so that the frame property "only
objects allocated by the call are mutated" can be stated and proved.
-/

namespace UseSx

/-- A JavaScript literal as produced by a theme function and written into the
compiled output: a string or a number (`typeof x === 'string' | 'number'`). -/
inductive JsLit where
  | s (v : String)
  | n (v : Int)
deriving DecidableEq, Repr

/-- A theme object: a JavaScript object with literal-valued properties,
modelled as an insertion-ordered association list. -/
abbrev Theme := List (String × JsLit)

/-- JavaScript property read `l[k]`: first (unique) binding of `k`. -/
def objGet {α : Type} : List (String × α) → String → Option α
  | [], _ => none
  | (k', v) :: rest, k => if k = k' then some v else objGet rest k

/-- JavaScript property write `l[k] = v`: replaces the value in place when the
key is present (keeping its position, as JS objects do), otherwise appends. -/
def objSet {α : Type} : List (String × α) → String → α → List (String × α)
  | [], k, v => [(k, v)]
  | (k', v') :: rest, k, v =>
    if k = k' then (k', v) :: rest else (k', v') :: objSet rest k v

/-- JavaScript `delete l[k]`: removes the (unique) binding of `k`. -/
def objDelete {α : Type} : List (String × α) → String → List (String × α)
  | [], _ => []
  | (k', v') :: rest, k => if k = k' then rest else (k', v') :: objDelete rest k

/-- `Object.assign(target, src)`: writes every property of `src` into
`target`, left to right. -/
def objAssign {α : Type} (target src : List (String × α)) : List (String × α) :=
  src.foldl (fun acc kv => objSet acc kv.1 kv.2) target

/-- `Object.keys l`. -/
def objKeys {α : Type} (l : List (String × α)) : List String := l.map Prod.fst

/-- The five pseudo-state flags a `Control` may override
(`keyof Control` minus `select`, as used by `createDefaultSelector`). -/
inductive ControlStateKey where
  | active | checked | disabled | focus | hover
deriving DecidableEq, Repr

/-- The name of a state key, as interpolated into `'&:' + type`. -/
def ControlStateKey.name : ControlStateKey → String
  | .active => "active"
  | .checked => "checked"
  | .disabled => "disabled"
  | .focus => "focus"
  | .hover => "hover"

/-- The `Control` interface of `src/control.tsx` (a Boundary Descriptor):
a `select` capability plus optional boolean overrides for the five states. -/
structure Control where
  select : String → String
  active : Option Bool := none
  checked : Option Bool := none
  disabled : Option Bool := none
  focus : Option Bool := none
  hover : Option Bool := none

/-- Reading `control[type]` for a state key. -/
def Control.getFlag (c : Control) : ControlStateKey → Option Bool
  | .active => c.active
  | .checked => c.checked
  | .disabled => c.disabled
  | .focus => c.focus
  | .hover => c.hover

/-- The value of an sx property (`SxProperty` in the source): a literal, a
theme function, a nested selector map, or one of the value shapes the
compiler ignores (`null`, `undefined`, an array). -/
inductive SxValue where
  | s (v : String)
  | n (v : Int)
  | fn (f : Theme → JsLit)
  | obj (entries : List (String × SxValue))
  | nul
  | undef
  | arr (items : List SxValue)

/-- JavaScript truthiness of an `SxValue`. -/
def SxValue.truthy : SxValue → Bool
  | .s v => v ≠ ""
  | .n v => v ≠ 0
  | .fn _ => true
  | .obj _ => true
  | .nul => false
  | .undef => false
  | .arr _ => true

/-- Modelled from the spec: `isPlainObject` is imported from
`src/isPlainObject`, a repository file not included under `src/`.  Section
4.5 of the spec dispatches on "Value is a nested mapping (Selector Map)" and
ignores "any other value shape (e.g. `null`/`undefined`, array)", so the
predicate holds exactly for plain objects. -/
def isPlainObject : SxValue → Bool
  | .obj _ => true
  | _ => false

/-- A compiled CSS value: a literal or a nested object
(the `CSSObject` value type of `src/cssObject.ts`). -/
inductive CSSVal where
  | s (v : String)
  | n (v : Int)
  | obj (entries : List (String × CSSVal))

/-- Compiled output: a nested mapping of property/selector keys. -/
abbrev CSSObject := List (String × CSSVal)

/-- Conversion of a theme-function result into a compiled output value
(`output[propName] = x(theme)` stores the literal verbatim). -/
def JsLit.toCSS : JsLit → CSSVal
  | .s v => .s v
  | .n v => .n v

/-- Conversion of a literal into an sx property value. -/
def JsLit.toSx : JsLit → SxValue
  | .s v => .s v
  | .n v => .n v

/-- JavaScript truthiness of a compiled value, as tested by
`if (!output[selector])`: empty strings and zero are falsy, objects truthy. -/
def CSSVal.truthy : CSSVal → Bool
  | .s v => v ≠ ""
  | .n v => v ≠ 0
  | .obj _ => true

/-- The entries of a compiled value that is known to be an object
(the top-level compile target is always an object). -/
def CSSVal.asObj : CSSVal → CSSObject
  | .obj entries => entries
  | _ => []

/-- Instrumentation: one event per invocation of a caller-supplied theme
function (`x(theme)` in `mutableCompileSxProperty`) or map function
(`maps[key](mapValue, mergedTheme)` in `compileSx`). -/
inductive Event where
  | fnCall (propName : String) (theme : Theme)
  | mapCall (key : String) (theme : Theme)
deriving DecidableEq, Repr

/-- Whether an event is a map-function invocation. -/
def Event.isMap : Event → Bool
  | .mapCall _ _ => true
  | _ => false

/-- A selector resolver (`SxSelector` in the source):
`(theme, control?) => null | string`. -/
abbrev SxSelector := Theme → Option Control → Option String

/-- A selector registry (`SxSelectors`): named resolvers. -/
abbrev SxSelectors := List (String × SxSelector)

/-- A property map (`SxMap`): `(value, theme) => CSS.Properties`. -/
abbrev SxMap := SxValue → Theme → List (String × SxValue)

/-- A map table (`SxMaps`). -/
abbrev SxMaps := List (String × SxMap)

/-- `createDefaultSelector` (src/control.tsx lines 178-188): the shared
resolver for the built-in pseudo-state selectors.

```
if (!control)                       return '&:' + type
else if (control[type] !== undefined) return control[type] ? '&' : null
else                                return control.select(':' + type) + ' &'
``` -/
def createDefaultSelector (t : ControlStateKey) : SxSelector :=
  fun _theme control =>
    match control with
    | none => some ("&:" ++ t.name)
    | some c =>
      match c.getFlag t with
      | some b => if b then some "&" else none
      | none => some (c.select (":" ++ t.name) ++ " &")

/-- `defaultSelectors` (src/control.tsx lines 169-176).  Note that
`focusWithin` is registered as `createDefaultSelector('focus')`: it reuses
the `focus` resolution logic verbatim. -/
def defaultSelectors : SxSelectors :=
  [ ("active", createDefaultSelector .active),
    ("checked", createDefaultSelector .checked),
    ("disabled", createDefaultSelector .disabled),
    ("focus", createDefaultSelector .focus),
    ("focusWithin", createDefaultSelector .focus),
    ("hover", createDefaultSelector .hover) ]

/-- Resolution of one selector-map key (src/control.tsx lines 276-278):
`selectors[selectorName] ? selectors[selectorName](theme, control) :
selectorName` — a registered resolver is invoked, an unregistered name is
used verbatim as a raw selector. -/
def resolveSelector (selectors : SxSelectors) (theme : Theme)
    (control : Option Control) (selectorName : String) : Option String :=
  match objGet selectors selectorName with
  | some f => f theme control
  | none => some selectorName

/-- The `if (!selector) continue` test (line 279): the branch is skipped when
the resolver returned `null` or an empty (falsy) string. -/
def selectorFalsy : Option String → Bool
  | none => true
  | some v => v = ""

mutual

/-- `mutableCompileSxProperty` (src/control.tsx lines 259-297).  The mutable
`output` parameter of the source is threaded explicitly as a `CSSVal` (the
current output level); the result is the updated level together with the
trace of theme-function invocations.  A property write on a target that is
not an object (possible when a selector string collides with an existing
truthy literal value in the output) is a strict-mode `TypeError`,
modelled as `Except.error`.  The constructor dispatch mirrors the source's
`typeof x === 'function'` / `'number'` / `'string'` / `isPlainObject(x)`
chain; `null`, `undefined` and arrays fall through all four tests and are
ignored. -/
def mutableCompileSxProperty (theme : Theme) (selectors : SxSelectors)
    (control : Option Control) (propName : String) :
    SxValue → CSSVal → Except Unit (CSSVal × List Event)
  | .fn f, target =>
    match target with
    | .obj entries =>
      .ok (.obj (objSet entries propName (f theme).toCSS), [.fnCall propName theme])
    | _ => .error ()
  | .n v, target =>
    match target with
    | .obj entries => .ok (.obj (objSet entries propName (.n v)), [])
    | _ => .error ()
  | .s v, target =>
    match target with
    | .obj entries => .ok (.obj (objSet entries propName (.s v)), [])
    | _ => .error ()
  | .obj xEntries, target =>
    mutableCompileSxEntries theme selectors control propName xEntries target
  | .nul, target => .ok (target, [])
  | .undef, target => .ok (target, [])
  | .arr _, target => .ok (target, [])

/-- The `for (const selectorName of selectorNames)` loop of
`mutableCompileSxProperty` (lines 272-295), iterating the entries of a
selector map in insertion order.  A `"default"` key recurses into the same
output level; any other key is resolved, skipped when the resolution is
falsy, and otherwise compiled into the sub-level stored under the resolved
selector string (`if (!output[selector]) output[selector] = {}` replaces a
missing or falsy entry by a fresh object; an existing truthy value is reused
as the recursion target). -/
def mutableCompileSxEntries (theme : Theme) (selectors : SxSelectors)
    (control : Option Control) (propName : String) :
    List (String × SxValue) → CSSVal → Except Unit (CSSVal × List Event)
  | [], target => .ok (target, [])
  | (selectorName, v) :: rest, target =>
    if selectorName = "default" then
      match mutableCompileSxProperty theme selectors control propName v target with
      | .error e => .error e
      | .ok (target', evs) =>
        match mutableCompileSxEntries theme selectors control propName rest target' with
        | .error e => .error e
        | .ok (target'', evs') => .ok (target'', evs ++ evs')
    else
      let sel := resolveSelector selectors theme control selectorName
      if selectorFalsy sel then
        mutableCompileSxEntries theme selectors control propName rest target
      else
        let selStr := sel.getD ""
        match target with
        | .obj entries =>
          let cur : CSSVal :=
            match objGet entries selStr with
            | some old => if old.truthy then old else .obj []
            | none => .obj []
          match mutableCompileSxProperty theme selectors control propName v cur with
          | .error e => .error e
          | .ok (sub', evs) =>
            match mutableCompileSxEntries theme selectors control propName rest
                (.obj (objSet entries selStr sub')) with
            | .error e => .error e
            | .ok (target'', evs') => .ok (target'', evs ++ evs')
        | _ => .error ()

end

/-- One entry of the array form of an sx prop, flattened one level:
inner sequences may hold specifications or falsy entries. -/
inductive SxFlatItem (α : Type) where
  | falsy
  | val (a : α)

/-- One entry of the array form of an sx prop: a specification, a falsy
entry, or a one-level-nested sequence. -/
inductive SxArrayItem (α : Type) where
  | falsy
  | val (a : α)
  | nested (items : List (SxFlatItem α))

/-- `CastableToTruthyArrayOf`: a single specification or a sparse sequence. -/
inductive SxInput (α : Type) where
  | one (a : α)
  | many (items : List (SxArrayItem α))

/-- Modelled from the spec: `ensureTruthyArray` is imported from
`src/ensureTruthyArray`, a repository file not included under `src/`.
Section 4.1 (Array Normalizer): a single specification, or a sequence with
falsy entries and at most one level of nested sequences, becomes a flat
ordered sequence of specifications with all falsy entries removed,
preserving relative order and flattening exactly one level. -/
def ensureTruthyArray {α : Type} : SxInput α → List α
  | .one a => [a]
  | .many items =>
    items.foldr
      (fun it acc =>
        match it with
        | .falsy => acc
        | .val a => a :: acc
        | .nested inner =>
          (inner.filterMap fun fi =>
            match fi with
            | .falsy => none
            | .val a => some a) ++ acc)
      []

/-- `mergeSx` (src/control.tsx lines 210-218):
`ensureTruthyArray(sx).reduce((acc, x) => Object.assign(acc, x), {})`. -/
def mergeSx {α : Type} (sx : SxInput (List (String × α))) : List (String × α) :=
  (ensureTruthyArray sx).foldl (fun acc x => objAssign acc x) []

/-- The options record of `compileSx` (`CompileSxOptions`).  `maps` and
`selectors` are optional in the source (`if (maps)` tests the table for
truthiness; an absent registry falls back to the `selectors = {}` default
parameter of `mutableCompileSxProperty`). -/
structure CompileSxOptions where
  control : Option Control := none
  maps : Option SxMaps := none
  selectors : Option SxSelectors := none
  theme : Option Theme := none
  sx : SxInput (List (String × SxValue))

/-- The map-expansion loop of `compileSx` (lines 229-236): for every key of
the table, in table order, read `styleObject[key]` (`undefined` when
absent), `delete` it, invoke the map with `(mapValue, mergedTheme)` and
`Object.assign` its result back. -/
def expandMaps (mergedTheme : Theme) :
    SxMaps → List (String × SxValue) × List Event →
    List (String × SxValue) × List Event
  | [], st => st
  | km :: rest, st =>
    expandMaps mergedTheme rest
      (objAssign (objDelete st.1 km.1)
         (km.2 ((objGet st.1 km.1).getD .undef) mergedTheme),
       st.2 ++ [Event.mapCall km.1 mergedTheme])

/-- The property loop of `compileSx` (lines 238-249): compile each entry of
the merged specification, in order, into the shared output level. -/
def compileSxProps (mergedTheme : Theme) (selectors : SxSelectors)
    (control : Option Control) :
    List (String × SxValue) → Except Unit (CSSVal × List Event) →
    Except Unit (CSSVal × List Event)
  | [], acc => acc
  | kv :: rest, acc =>
    match acc with
    | .error e => .error e
    | .ok out =>
      match mutableCompileSxProperty mergedTheme selectors control
          kv.1 kv.2 out.1 with
      | .error e => .error e
      | .ok (out', evs') =>
        compileSxProps mergedTheme selectors control rest (.ok (out', out.2 ++ evs'))

/-- `compileSx` (src/control.tsx lines 220-257): merge the sx array, compute
`mergedTheme = {...theme, ...options.theme}`, run the map-expansion loop,
then compile each remaining property into a fresh output object.
`themedCSS` is invoked with `options.theme || {}` exactly as in the source.
The property loop iterates the entries of `styleObject` directly; this
coincides with the source's `Object.keys` snapshot because `styleObject` is
built by `objSet` / `objDelete` and therefore has unique keys, and is not
mutated during the loop. -/
def compileSx (options : CompileSxOptions) : Except Unit (CSSObject × List Event) :=
  let themedCSS : Theme → Except Unit (CSSObject × List Event) := fun theme =>
    let styleObject := mergeSx options.sx
    let mergedTheme := objAssign (objAssign [] theme) (options.theme.getD [])
    let expanded : List (String × SxValue) × List Event :=
      match options.maps with
      | none => (styleObject, [])
      | some maps => expandMaps mergedTheme maps (styleObject, [])
    match compileSxProps mergedTheme (options.selectors.getD []) options.control
        expanded.1 (.ok (.obj [], expanded.2)) with
    | .error e => .error e
    | .ok (out, evs) => .ok (out.asObj, evs)
  themedCSS (options.theme.getD [])

/-- The props record accepted by the hook returned by `createUseSx`. -/
structure UseSxProps where
  control : Option Control := none
  maps : Option SxMaps := none
  selectors : Option SxSelectors := none
  theme : Option Theme := none
  sx : SxInput (List (String × SxValue))

/-- `createUseSx` (src/control.tsx lines 149-167).  The two ambient context
reads (`useContext(ControlContext)`, `useContext(ThemeContext)`) are
modelled as the explicit parameters `contextControl` and `contextTheme`.
Each `||` fallback of the source (`props.control || control`,
`props.selectors || selectors`, `props.theme || theme`) becomes an `Option`
fallback: an explicitly supplied object is always truthy. -/
def createUseSx (selectors : SxSelectors) (contextControl : Option Control)
    (contextTheme : Option Theme) (props : UseSxProps) :
    Except Unit (CSSObject × List Event) :=
  compileSx
    { control := props.control <|> contextControl
      selectors := some (props.selectors.getD selectors)
      maps := props.maps
      sx := .many ((ensureTruthyArray props.sx).map .val)
      theme := props.theme <|> contextTheme }

/-- `useSx = createUseSx(defaultSelectors)` (src/control.tsx line 204). -/
def useSx : Option Control → Option Theme → UseSxProps →
    Except Unit (CSSObject × List Event) :=
  createUseSx defaultSelectors

/-!
Store-based embedding.  To state that `mergeSx` and `compileSx` mutate only
objects they allocate themselves (the frame property of the spec's
"side-effect-free / immutable inputs" sentences), the same code is embedded
a second time over an explicit heap: objects are indices into a `Store`,
allocation appends, and every property write of the source becomes a store
write at an index.  The initial store is arbitrary — it stands for the whole
caller-visible heap, including wherever the caller keeps the input
specifications, the theme and the Boundary Descriptor.  Caller inputs are
passed by value (the source only ever reads them), so the claim "no
caller-supplied input is mutated" is exactly the statement that every index
that exists before the call still holds the same object afterwards.
-/

/-- A heap value: a caller-supplied sx property value held by the merged
copy, a literal written into an output object, or a reference to another
heap object. -/
inductive HVal where
  | sxv (v : SxValue)
  | s (v : String)
  | n (v : Int)
  | ref (r : Nat)

/-- A heap object. -/
abbrev HObj := List (String × HVal)

/-- The heap: object `r` lives at index `r`. -/
abbrev Store := List HObj

/-- Dereference. -/
def storeGet (st : Store) (r : Nat) : Option HObj := st[r]?

/-- Replace the object at index `r`. -/
def storeSet (st : Store) (r : Nat) (o : HObj) : Store := st.set r o

/-- Allocate a fresh object (`{}` or `{...}` in the source). -/
def storeAlloc (st : Store) (o : HObj) : Store × Nat := (st ++ [o], st.length)

/-- Property write `st[r][k] = v`. -/
def storeWrite (st : Store) (r : Nat) (k : String) (v : HVal) : Store :=
  storeSet st r (objSet ((storeGet st r).getD []) k v)

/-- JavaScript truthiness of a heap value (object references are truthy). -/
def HVal.truthy : HVal → Bool
  | .sxv v => v.truthy
  | .s v => v ≠ ""
  | .n v => v ≠ 0
  | .ref _ => true

/-- A theme-function result as a heap value. -/
def JsLit.toH : JsLit → HVal
  | .s v => .s v
  | .n v => .n v

mutual

/-- `mutableCompileSxProperty` over the explicit heap: the `output`
parameter is the heap value that the source holds a reference to, and every
property write of the source becomes a `storeWrite` on its index.  Writing a
property of a non-object is the strict-mode `TypeError`, modelled as
`none`. -/
def mutableCompileSxPropertyH (theme : Theme) (selectors : SxSelectors)
    (control : Option Control) (propName : String) :
    SxValue → HVal → Store → Option Store
  | .fn f, target, st =>
    match target with
    | .ref r => some (storeWrite st r propName (f theme).toH)
    | _ => none
  | .n v, target, st =>
    match target with
    | .ref r => some (storeWrite st r propName (.n v))
    | _ => none
  | .s v, target, st =>
    match target with
    | .ref r => some (storeWrite st r propName (.s v))
    | _ => none
  | .obj xEntries, target, st =>
    mutableCompileSxEntriesH theme selectors control propName xEntries target st
  | .nul, _, st => some st
  | .undef, _, st => some st
  | .arr _, _, st => some st

/-- The selector-map loop of `mutableCompileSxProperty` over the heap:
`if (!output[selector]) output[selector] = {}` allocates a fresh object and
stores a reference to it when the current entry is missing or falsy; an
existing truthy entry (a reference to an earlier sub-level, or a literal)
is reused as the recursion target unchanged. -/
def mutableCompileSxEntriesH (theme : Theme) (selectors : SxSelectors)
    (control : Option Control) (propName : String) :
    List (String × SxValue) → HVal → Store → Option Store
  | [], _, st => some st
  | (selectorName, v) :: rest, target, st =>
    if selectorName = "default" then
      match mutableCompileSxPropertyH theme selectors control propName v target st with
      | none => none
      | some st' =>
        mutableCompileSxEntriesH theme selectors control propName rest target st'
    else
      let sel := resolveSelector selectors theme control selectorName
      if selectorFalsy sel then
        mutableCompileSxEntriesH theme selectors control propName rest target st
      else
        let selStr := sel.getD ""
        match target with
        | .ref r =>
          let o := (storeGet st r).getD []
          let next : Store × HVal :=
            match objGet o selStr with
            | some old =>
              if old.truthy then (st, old)
              else
                let fresh := storeAlloc st []
                (storeWrite fresh.1 r selStr (.ref fresh.2), .ref fresh.2)
            | none =>
              let fresh := storeAlloc st []
              (storeWrite fresh.1 r selStr (.ref fresh.2), .ref fresh.2)
          match mutableCompileSxPropertyH theme selectors control propName v
              next.2 next.1 with
          | none => none
          | some st' =>
            mutableCompileSxEntriesH theme selectors control propName rest target st'
        | _ => none

end

/-- `Object.assign(styleObject, x)` over the heap: write the top-level
entries of one specification into the object at index `r`. -/
def assignSpecH (r : Nat) : List (String × SxValue) → Store → Store
  | [], st => st
  | kv :: rest, st => assignSpecH r rest (storeWrite st r kv.1 (.sxv kv.2))

/-- The `reduce` of `mergeSx` over the heap: assign each specification of
the normalized array in turn. -/
def assignSpecsH (r : Nat) : List (List (String × SxValue)) → Store → Store
  | [], st => st
  | x :: rest, st => assignSpecsH r rest (assignSpecH r x st)

/-- `mergeSx` over the heap: allocate the `{}` accumulator, then
`Object.assign` the top-level entries of every specification into it. -/
def mergeSxH (st : Store) (sx : SxInput (List (String × SxValue))) : Store × Nat :=
  let fresh := storeAlloc st []
  (assignSpecsH fresh.2 (ensureTruthyArray sx) fresh.1, fresh.2)

/-- The map-expansion loop over the heap, mutating the merged copy at index
`r` in place: read `styleObject[key]`, `delete` it, invoke the map,
`Object.assign` the result back. -/
def expandMapsH (mergedTheme : Theme) (r : Nat) : SxMaps → Store → Store
  | [], st => st
  | km :: rest, st =>
    let o := (storeGet st r).getD []
    let mapValue : SxValue :=
      match objGet o km.1 with
      | some (.sxv v) => v
      | _ => .undef
    expandMapsH mergedTheme r rest
      (assignSpecH r (km.2 mapValue mergedTheme)
        (storeSet st r (objDelete o km.1)))

/-- The property loop of `compileSx` over the heap: compile each entry of
the merged copy into the output object at index `rOut`. -/
def compileSxPropsH (mergedTheme : Theme) (selectors : SxSelectors)
    (control : Option Control) (rOut : Nat) :
    List (String × HVal) → Store → Option Store
  | [], st => some st
  | kv :: rest, st =>
    match kv.2 with
    | .sxv v =>
      match mutableCompileSxPropertyH mergedTheme selectors control
          kv.1 v (.ref rOut) st with
      | none => none
      | some st' => compileSxPropsH mergedTheme selectors control rOut rest st'
    | _ => none

/-- `compileSx` over the heap: merge into a fresh object, run the
map-expansion loop mutating that object in place, allocate the fresh output
object, and compile every property of the merged copy into it. -/
def compileSxH (st : Store) (options : CompileSxOptions) : Option (Store × Nat) :=
  let theme := options.theme.getD []
  let merged := mergeSxH st options.sx
  let rStyle := merged.2
  let mergedTheme := objAssign (objAssign [] theme) (options.theme.getD [])
  let st2 : Store :=
    match options.maps with
    | none => merged.1
    | some maps => expandMapsH mergedTheme rStyle maps merged.1
  let out := storeAlloc st2 []
  let props := (storeGet out.1 rStyle).getD []
  match compileSxPropsH mergedTheme (options.selectors.getD []) options.control
      out.2 props out.1 with
  | none => none
  | some stF => some (stF, out.2)

/-- The merged theme used by `compileSx` for the theme-function and
map-function invocations: `themedCSS` receives `options.theme || {}` and
computes `{...theme, ...options.theme}`. -/
def mergedThemeOf (options : CompileSxOptions) : Theme :=
  objAssign (objAssign [] (options.theme.getD [])) (options.theme.getD [])

/-- The value shapes `mutableCompileSxProperty` ignores: `null`, `undefined`
and arrays fall through every branch of its dispatch. -/
def ignoredShape : SxValue → Bool
  | .nul => true
  | .undef => true
  | .arr _ => true
  | _ => false

/-- The names registered in `defaultSelectors`. -/
def builtinStateNames : List String :=
  ["active", "checked", "disabled", "focus", "focusWithin", "hover"]

/-- The `Control` state a built-in named selector consults: each name maps to
itself except `focusWithin`, which is registered as
`createDefaultSelector('focus')` and therefore consults the `focus` flag and
produces `:focus` selectors. -/
def underlyingState (name : String) : ControlStateKey :=
  if name = "active" then .active
  else if name = "checked" then .checked
  else if name = "disabled" then .disabled
  else if name = "focus" then .focus
  else if name = "focusWithin" then .focus
  else .hover

/-- A heap value is admissible for the region allocated after index `n` of a
store of length `len`: any reference it carries points into `[n, len)`. -/
def hvalOK (n len : Nat) : HVal → Prop
  | .ref r => n ≤ r ∧ r < len
  | _ => True

/-- Region invariant: every object at an index `≥ n` only references objects
in the region `[n, store length)`.  The compiler establishes this for the
region it allocates: output sub-levels are fresh objects referenced by fresh
objects. -/
def storeInv (n : Nat) (st : Store) : Prop :=
  ∀ r, n ≤ r → ∀ o, storeGet st r = some o → ∀ kv ∈ o, hvalOK n st.length kv.2

/-- The working bundle for the frame proof: the prefix `[0, n)` is the
caller's heap, and the region `≥ n` is self-contained. -/
def storeOK (n : Nat) (st : Store) : Prop := n ≤ st.length ∧ storeInv n st

/-- `st'` extends `st` without touching the first `n` objects. -/
def framePre (n : Nat) (st st' : Store) : Prop :=
  st.length ≤ st'.length ∧ ∀ i, i < n → storeGet st' i = storeGet st i

/-! Association-list lemmas: how the JavaScript object operations interact. -/

theorem objGet_objSet {α : Type} (l : List (String × α)) (k : String) (v : α)
    (k' : String) :
    objGet (objSet l k v) k' = if k' = k then some v else objGet l k' := by
  induction l with
  | nil => simp [objSet, objGet]
  | cons hd rest ih =>
    obtain ⟨k1, v1⟩ := hd
    by_cases hk : k = k1
    · subst hk
      by_cases hk' : k' = k <;> simp [objSet, objGet, hk']
    · by_cases hk' : k' = k1
      · subst hk'
        simp [objSet, objGet, hk, Ne.symm hk]
      · simp [objSet, objGet, hk, hk', ih]

theorem objGet_mem {α : Type} (l : List (String × α)) (k : String) (v : α)
    (h : objGet l k = some v) : (k, v) ∈ l := by
  induction l with
  | nil => simp [objGet] at h
  | cons hd rest ih =>
    obtain ⟨k1, v1⟩ := hd
    by_cases hk : k = k1
    · subst hk
      simp [objGet] at h
      simp [h]
    · simp [objGet, hk] at h
      exact List.mem_cons_of_mem _ (ih h)

theorem mem_objSet {α : Type} (l : List (String × α)) (k : String) (v : α)
    (kv : String × α) (h : kv ∈ objSet l k v) : kv.2 = v ∨ kv ∈ l := by
  induction l with
  | nil =>
    simp [objSet] at h
    simp [h]
  | cons hd rest ih =>
    obtain ⟨k1, v1⟩ := hd
    by_cases hk : k = k1
    · subst hk
      simp [objSet] at h
      rcases h with h | h
      · simp [h]
      · exact Or.inr (List.mem_cons_of_mem _ h)
    · simp [objSet, hk] at h
      rcases h with h | h
      · exact Or.inr (by simp [h])
      · rcases ih h with h' | h'
        · exact Or.inl h'
        · exact Or.inr (List.mem_cons_of_mem _ h')

theorem mem_objDelete {α : Type} (l : List (String × α)) (k : String)
    (kv : String × α) (h : kv ∈ objDelete l k) : kv ∈ l := by
  induction l with
  | nil => simp [objDelete] at h
  | cons hd rest ih =>
    obtain ⟨k1, v1⟩ := hd
    by_cases hk : k = k1
    · subst hk
      simp [objDelete] at h
      exact List.mem_cons_of_mem _ h
    · simp [objDelete, hk] at h
      rcases h with h | h
      · simp [h]
      · exact List.mem_cons_of_mem _ (ih h)

theorem objGet_eq_none_of_not_mem {α : Type} (l : List (String × α)) (k : String)
    (h : k ∉ objKeys l) : objGet l k = none := by
  induction l with
  | nil => simp [objGet]
  | cons hd rest ih =>
    obtain ⟨k1, v1⟩ := hd
    simp [objKeys] at h
    simp [objGet, h.1, ih (by simpa [objKeys] using h.2)]

theorem objSet_of_get_none {α : Type} (l : List (String × α)) (k : String) (v : α)
    (h : objGet l k = none) : objSet l k v = l ++ [(k, v)] := by
  induction l with
  | nil => simp [objSet]
  | cons hd rest ih =>
    obtain ⟨k1, v1⟩ := hd
    by_cases hk : k = k1
    · simp [objGet, hk] at h
    · simp [objGet, hk] at h
      simp [objSet, hk, ih h]

theorem objGet_append {α : Type} (l1 l2 : List (String × α)) (k : String) :
    objGet (l1 ++ l2) k = (objGet l1 k).or (objGet l2 k) := by
  induction l1 with
  | nil => simp [objGet]
  | cons hd rest ih =>
    obtain ⟨k1, v1⟩ := hd
    by_cases hk : k = k1 <;> simp [objGet, hk, ih]

theorem objAssign_append {α : Type} (src : List (String × α)) :
    ∀ acc : List (String × α), (∀ k ∈ objKeys src, objGet acc k = none) →
    (objKeys src).Nodup → objAssign acc src = acc ++ src := by
  induction src with
  | nil => intro acc _ _; simp [objAssign]
  | cons hd rest ih =>
    intro acc hd2 hn
    obtain ⟨k1, v1⟩ := hd
    simp only [objKeys, List.map_cons, List.nodup_cons] at hn
    have hacc : objGet acc k1 = none := hd2 k1 (by simp [objKeys])
    have step : objAssign acc ((k1, v1) :: rest) =
        objAssign (objSet acc k1 v1) rest := by
      simp [objAssign]
    rw [step, objSet_of_get_none _ _ _ hacc,
      ih (acc ++ [(k1, v1)])
        (by
          intro k hk
          rw [objGet_append]
          have h1 : objGet acc k = none := by
            refine hd2 k ?_
            simp only [objKeys, List.map_cons, List.mem_cons]
            exact Or.inr hk
          have h2 : objGet [(k1, v1)] k = none := by
            have hne : k ≠ k1 := by
              intro hkk
              subst hkk
              exact hn.1 hk
            simp [objGet, hne]
          simp [h1, h2])
        hn.2,
      List.append_assoc]
    rfl

theorem objAssign_nil {α : Type} (l : List (String × α))
    (h : (objKeys l).Nodup) : objAssign [] l = l := by
  simpa using objAssign_append l [] (by intro k _; simp [objGet]) h

theorem objGet_objAssign {α : Type} (src : List (String × α))
    (h : (objKeys src).Nodup) :
    ∀ (acc : List (String × α)) (k : String),
    objGet (objAssign acc src) k = (objGet src k).or (objGet acc k) := by
  induction src with
  | nil => intro acc k; simp [objAssign, objGet]
  | cons hd rest ih =>
    intro acc k
    obtain ⟨k1, v1⟩ := hd
    simp only [objKeys, List.map_cons, List.nodup_cons] at h
    have step : objAssign acc ((k1, v1) :: rest) =
        objAssign (objSet acc k1 v1) rest := by
      simp [objAssign]
    rw [step, ih h.2, objGet_objSet]
    by_cases hk : k = k1
    · subst hk
      have : objGet rest k = none :=
        objGet_eq_none_of_not_mem rest k (by simpa [objKeys] using h.1)
      simp [objGet, this]
    · simp [objGet, hk]

theorem objSet_self {α : Type} (l : List (String × α)) (k : String) (v : α)
    (h : objGet l k = some v) : objSet l k v = l := by
  induction l with
  | nil => simp [objGet] at h
  | cons hd rest ih =>
    obtain ⟨k1, v1⟩ := hd
    by_cases hk : k = k1
    · subst hk
      simp [objGet] at h
      simp [objSet, h]
    · simp [objGet, hk] at h
      simp [objSet, hk, ih h]

theorem objGet_of_nodup_mem {α : Type} (l : List (String × α))
    (h : (objKeys l).Nodup) (k : String) (v : α) (hm : (k, v) ∈ l) :
    objGet l k = some v := by
  induction l with
  | nil => simp at hm
  | cons hd rest ih =>
    obtain ⟨k1, v1⟩ := hd
    simp only [objKeys, List.map_cons, List.nodup_cons] at h
    rcases List.mem_cons.mp hm with h1 | h1
    · obtain ⟨rfl, rfl⟩ := Prod.mk.injEq .. ▸ h1
      simp_all [objGet]
    · have hk : k ≠ k1 := by
        intro hkk
        subst hkk
        exact h.1 (by simpa [objKeys] using List.mem_map_of_mem Prod.fst h1)
      simp [objGet, hk, ih h.2 h1]

/-! Trace lemmas: which events each phase of the compiler can emit. -/

mutual

theorem mutableCompileSxProperty_no_mapCall (theme : Theme)
    (selectors : SxSelectors) (control : Option Control) (propName : String)
    (v : SxValue) (target t' : CSSVal) (evs : List Event)
    (h : mutableCompileSxProperty theme selectors control propName v target =
      .ok (t', evs)) :
    evs.filter Event.isMap = [] := by
  cases v with
  | fn f =>
    cases target with
    | obj entries =>
      simp [mutableCompileSxProperty] at h
      obtain ⟨-, rfl⟩ := h
      rfl
    | s w => simp [mutableCompileSxProperty] at h
    | n w => simp [mutableCompileSxProperty] at h
  | s w =>
    cases target <;> simp [mutableCompileSxProperty] at h <;> simp [h]
  | n w =>
    cases target <;> simp [mutableCompileSxProperty] at h <;> simp [h]
  | nul => simp [mutableCompileSxProperty] at h; simp [h]
  | undef => simp [mutableCompileSxProperty] at h; simp [h]
  | arr items => simp [mutableCompileSxProperty] at h; simp [h]
  | obj xEntries =>
    exact mutableCompileSxEntries_no_mapCall theme selectors control propName
      xEntries target t' evs (by simpa [mutableCompileSxProperty] using h)

theorem mutableCompileSxEntries_no_mapCall (theme : Theme)
    (selectors : SxSelectors) (control : Option Control) (propName : String)
    (es : List (String × SxValue)) (target t' : CSSVal) (evs : List Event)
    (h : mutableCompileSxEntries theme selectors control propName es target =
      .ok (t', evs)) :
    evs.filter Event.isMap = [] := by
  cases es with
  | nil =>
    simp [mutableCompileSxEntries] at h
    simp [h]
  | cons kv rest =>
    obtain ⟨selectorName, v⟩ := kv
    rw [mutableCompileSxEntries] at h
    by_cases hdef : selectorName = "default"
    · simp only [hdef, if_pos rfl] at h
      cases h1 : mutableCompileSxProperty theme selectors control propName v target with
      | error e => rw [h1] at h; simp at h
      | ok p1 =>
        obtain ⟨t1, evs1⟩ := p1
        rw [h1] at h
        dsimp only at h
        cases h2 : mutableCompileSxEntries theme selectors control propName rest t1 with
        | error e => rw [h2] at h; simp at h
        | ok p2 =>
          obtain ⟨t2, evs2⟩ := p2
          rw [h2] at h
          dsimp only at h
          obtain ⟨rfl, rfl⟩ : t2 = t' ∧ evs1 ++ evs2 = evs := by
            simpa using h
          rw [List.filter_append,
            mutableCompileSxProperty_no_mapCall theme selectors control propName
              v target t1 evs1 h1,
            mutableCompileSxEntries_no_mapCall theme selectors control propName
              rest t1 t2 evs2 h2]
          rfl
    · simp only [hdef, if_neg hdef] at h
      by_cases hf : selectorFalsy (resolveSelector selectors theme control selectorName)
      · rw [if_pos hf] at h
        exact mutableCompileSxEntries_no_mapCall theme selectors control propName
          rest target t' evs h
      · rw [if_neg hf] at h
        cases target with
        | s w => simp at h
        | n w => simp at h
        | obj entries =>
          dsimp only at h
          cases h1 : mutableCompileSxProperty theme selectors control propName v
              (match objGet entries ((resolveSelector selectors theme control selectorName).getD "") with
               | some old => if old.truthy then old else .obj []
               | none => .obj []) with
          | error e => rw [h1] at h; simp at h
          | ok p1 =>
            obtain ⟨sub', evs1⟩ := p1
            rw [h1] at h
            dsimp only at h
            cases h2 : mutableCompileSxEntries theme selectors control propName rest
                (.obj (objSet entries
                  ((resolveSelector selectors theme control selectorName).getD "") sub')) with
            | error e => rw [h2] at h; simp at h
            | ok p2 =>
              obtain ⟨t2, evs2⟩ := p2
              rw [h2] at h
              dsimp only at h
              obtain ⟨rfl, rfl⟩ : t2 = t' ∧ evs1 ++ evs2 = evs := by
                simpa using h
              rw [List.filter_append,
                mutableCompileSxProperty_no_mapCall theme selectors control propName
                  v _ sub' evs1 h1,
                mutableCompileSxEntries_no_mapCall theme selectors control propName
                  rest _ t2 evs2 h2]
              rfl

end

theorem expandMaps_trace (mergedTheme : Theme) (maps : SxMaps) :
    ∀ st : List (String × SxValue) × List Event,
    (expandMaps mergedTheme maps st).2 =
      st.2 ++ maps.map (fun km => Event.mapCall km.1 mergedTheme) := by
  induction maps with
  | nil => intro st; simp [expandMaps]
  | cons km rest ih =>
    intro st
    rw [expandMaps, ih]
    simp

theorem compileSxProps_filter_isMap (mergedTheme : Theme)
    (selectors : SxSelectors) (control : Option Control)
    (es : List (String × SxValue)) :
    ∀ (t0 : CSSVal) (evs0 : List Event) (t' : CSSVal) (evs : List Event),
    compileSxProps mergedTheme selectors control es (.ok (t0, evs0)) =
      .ok (t', evs) →
    evs.filter Event.isMap = evs0.filter Event.isMap := by
  induction es with
  | nil =>
    intro t0 evs0 t' evs h
    simp [compileSxProps] at h
    simp [h]
  | cons kv rest ih =>
    intro t0 evs0 t' evs h
    rw [compileSxProps] at h
    dsimp only at h
    cases h1 : mutableCompileSxProperty mergedTheme selectors control kv.1 kv.2 t0 with
    | error e => rw [h1] at h; simp at h
    | ok p =>
      obtain ⟨out', evs'⟩ := p
      rw [h1] at h
      dsimp only at h
      rw [ih out' (evs0 ++ evs') t' evs h, List.filter_append,
        mutableCompileSxProperty_no_mapCall mergedTheme selectors control
          kv.1 kv.2 t0 out' evs' h1]
      simp

theorem objAssign_self {α : Type} (l : List (String × α))
    (h : (objKeys l).Nodup) : objAssign l l = l := by
  have aux : ∀ src : List (String × α),
      (∀ kv ∈ src, objGet l kv.1 = some kv.2) → objAssign l src = l := by
    intro src
    induction src with
    | nil => intro _; simp [objAssign]
    | cons hd rest ih =>
      intro hsrc
      obtain ⟨k1, v1⟩ := hd
      have step : objAssign l ((k1, v1) :: rest) =
          objAssign (objSet l k1 v1) rest := by
        simp [objAssign]
      rw [step, objSet_self _ _ _ (hsrc (k1, v1) (by simp))]
      exact ih fun kv hkv => hsrc kv (List.mem_cons_of_mem _ hkv)
  exact aux l fun kv hkv => objGet_of_nodup_mem l h kv.1 kv.2 hkv

/-! Heap lemmas for the frame property. -/

theorem storeGet_lt_length (st : Store) (r : Nat) (o : HObj)
    (h : storeGet st r = some o) : r < st.length :=
  (List.getElem?_eq_some.mp h).1

theorem storeWrite_length (st : Store) (r : Nat) (k : String) (v : HVal) :
    (storeWrite st r k v).length = st.length :=
  List.length_set ..

theorem storeGet_storeSet_ne (st : Store) (r i : Nat) (o : HObj) (h : i ≠ r) :
    storeGet (storeSet st r o) i = storeGet st i :=
  List.getElem?_set_ne (Ne.symm h)

theorem storeGet_storeWrite_ne (st : Store) (r i : Nat) (k : String) (v : HVal)
    (h : i ≠ r) : storeGet (storeWrite st r k v) i = storeGet st i :=
  storeGet_storeSet_ne st r i _ h

theorem storeGet_storeWrite_self (st : Store) (r : Nat) (k : String) (v : HVal)
    (h : r < st.length) :
    storeGet (storeWrite st r k v) r =
      some (objSet ((storeGet st r).getD []) k v) :=
  List.getElem?_set_self h

theorem storeGet_alloc_lt (st : Store) (o : HObj) (i : Nat)
    (h : i < st.length) : storeGet (st ++ [o]) i = storeGet st i :=
  List.getElem?_append_left h

theorem hvalOK_mono (n len len' : Nat) (hlen : len ≤ len') (v : HVal)
    (h : hvalOK n len v) : hvalOK n len' v := by
  cases v <;> simp [hvalOK] at h ⊢ <;> omega

theorem hvalOK_toH (n len : Nat) (x : JsLit) : hvalOK n len x.toH := by
  cases x <;> simp [JsLit.toH, hvalOK]

theorem framePre_refl (n : Nat) (st : Store) : framePre n st st :=
  ⟨le_refl _, fun _ _ => rfl⟩

theorem framePre_trans (n : Nat) (st1 st2 st3 : Store)
    (h1 : framePre n st1 st2) (h2 : framePre n st2 st3) : framePre n st1 st3 :=
  ⟨le_trans h1.1 h2.1, fun i hi => (h2.2 i hi).trans (h1.2 i hi)⟩

theorem framePre_storeWrite (n : Nat) (st : Store) (r : Nat) (k : String)
    (v : HVal) (hr : n ≤ r) : framePre n st (storeWrite st r k v) :=
  ⟨le_of_eq (storeWrite_length st r k v).symm,
   fun i hi => storeGet_storeWrite_ne st r i k v (by omega)⟩

theorem framePre_alloc (n : Nat) (st : Store) (o : HObj)
    (hn : n ≤ st.length) : framePre n st (st ++ [o]) :=
  ⟨by simp, fun i hi => storeGet_alloc_lt st o i (by omega)⟩

theorem framePre_storeSet (n : Nat) (st : Store) (r : Nat) (o : HObj)
    (hr : n ≤ r) : framePre n st (storeSet st r o) :=
  ⟨le_of_eq (List.length_set ..).symm,
   fun i hi => storeGet_storeSet_ne st r i o (by omega)⟩

theorem storeOK_storeSet (n : Nat) (st : Store) (r : Nat) (o : HObj)
    (h : storeOK n st) (hr : n ≤ r)
    (ho : ∀ kv ∈ o, hvalOK n st.length kv.2) : storeOK n (storeSet st r o) := by
  obtain ⟨hn, hinv⟩ := h
  refine ⟨by simpa [storeSet] using hn, ?_⟩
  intro r' hr' o' hget kv hkv
  rw [show (storeSet st r o).length = st.length from List.length_set ..]
  by_cases hrr : r' = r
  · subst hrr
    by_cases hlen : r' < st.length
    · rw [show storeGet (storeSet st r' o) r' = some o from
        List.getElem?_set_self hlen] at hget
      obtain rfl : o = o' := by simpa using hget
      exact ho kv hkv
    · rw [show storeSet st r' o = st from
        List.set_eq_of_length_le (by omega)] at hget
      exact hinv r' hr' o' hget kv hkv
  · rw [storeGet_storeSet_ne st r r' o hrr] at hget
    exact hinv r' hr' o' hget kv hkv

theorem storeOK_storeWrite (n : Nat) (st : Store) (r : Nat) (k : String)
    (v : HVal) (h : storeOK n st) (hr : n ≤ r)
    (hv : hvalOK n st.length v) : storeOK n (storeWrite st r k v) := by
  refine storeOK_storeSet n st r _ h hr ?_
  intro kv hkv
  rcases mem_objSet _ k v kv hkv with h2 | h2
  · rw [h2]; exact hv
  · cases hget : storeGet st r with
    | none => rw [hget] at h2; simp at h2
    | some o0 =>
      rw [hget] at h2
      exact h.2 r hr o0 hget kv (by simpa using h2)

theorem storeOK_alloc (n : Nat) (st : Store) (h : storeOK n st) :
    storeOK n (st ++ [[]]) := by
  obtain ⟨hn, hinv⟩ := h
  refine ⟨by simp; omega, ?_⟩
  intro r hr o hget kv hkv
  by_cases hlen : r < st.length
  · rw [storeGet_alloc_lt st [] r hlen] at hget
    exact hvalOK_mono n st.length _ (by simp) kv.2 (hinv r hr o hget kv hkv)
  · by_cases hlen2 : r = st.length
    · subst hlen2
      rw [show storeGet (st ++ [[]]) st.length = some [] from
        List.getElem?_concat_length st []] at hget
      obtain rfl : ([] : HObj) = o := by simpa using hget
      simp at hkv
    · have : storeGet (st ++ [[]]) r = none := by
        have : (st ++ [[]]).length ≤ r := by simp; omega
        exact List.getElem?_eq_none this
      rw [this] at hget
      simp at hget

mutual

theorem mutableCompileSxPropertyH_frame (theme : Theme) (selectors : SxSelectors)
    (control : Option Control) (propName : String) (n : Nat)
    (v : SxValue) (target : HVal) (st st' : Store)
    (hok : storeOK n st) (ht : hvalOK n st.length target)
    (h : mutableCompileSxPropertyH theme selectors control propName v target st =
      some st') :
    framePre n st st' ∧ storeOK n st' := by
  cases v with
  | fn f =>
    cases target with
    | ref r =>
      simp only [mutableCompileSxPropertyH, Option.some.injEq] at h
      subst h
      simp only [hvalOK] at ht
      exact ⟨framePre_storeWrite n st r propName _ ht.1,
        storeOK_storeWrite n st r propName _ hok ht.1 (hvalOK_toH ..)⟩
    | sxv w => simp [mutableCompileSxPropertyH] at h
    | s w => simp [mutableCompileSxPropertyH] at h
    | n w => simp [mutableCompileSxPropertyH] at h
  | s w =>
    cases target with
    | ref r =>
      simp only [mutableCompileSxPropertyH, Option.some.injEq] at h
      subst h
      simp only [hvalOK] at ht
      exact ⟨framePre_storeWrite n st r propName _ ht.1,
        storeOK_storeWrite n st r propName _ hok ht.1 trivial⟩
    | sxv w' => simp [mutableCompileSxPropertyH] at h
    | s w' => simp [mutableCompileSxPropertyH] at h
    | n w' => simp [mutableCompileSxPropertyH] at h
  | n w =>
    cases target with
    | ref r =>
      simp only [mutableCompileSxPropertyH, Option.some.injEq] at h
      subst h
      simp only [hvalOK] at ht
      exact ⟨framePre_storeWrite n st r propName _ ht.1,
        storeOK_storeWrite n st r propName _ hok ht.1 trivial⟩
    | sxv w' => simp [mutableCompileSxPropertyH] at h
    | s w' => simp [mutableCompileSxPropertyH] at h
    | n w' => simp [mutableCompileSxPropertyH] at h
  | nul =>
    simp only [mutableCompileSxPropertyH, Option.some.injEq] at h
    subst h
    exact ⟨framePre_refl n st, hok⟩
  | undef =>
    simp only [mutableCompileSxPropertyH, Option.some.injEq] at h
    subst h
    exact ⟨framePre_refl n st, hok⟩
  | arr items =>
    simp only [mutableCompileSxPropertyH, Option.some.injEq] at h
    subst h
    exact ⟨framePre_refl n st, hok⟩
  | obj xEntries =>
    exact mutableCompileSxEntriesH_frame theme selectors control propName n
      xEntries target st st' hok ht
      (by simpa [mutableCompileSxPropertyH] using h)

theorem mutableCompileSxEntriesH_frame (theme : Theme) (selectors : SxSelectors)
    (control : Option Control) (propName : String) (n : Nat)
    (es : List (String × SxValue)) (target : HVal) (st st' : Store)
    (hok : storeOK n st) (ht : hvalOK n st.length target)
    (h : mutableCompileSxEntriesH theme selectors control propName es target st =
      some st') :
    framePre n st st' ∧ storeOK n st' := by
  cases es with
  | nil =>
    simp only [mutableCompileSxEntriesH, Option.some.injEq] at h
    subst h
    exact ⟨framePre_refl n st, hok⟩
  | cons kv rest =>
    obtain ⟨selectorName, v⟩ := kv
    rw [mutableCompileSxEntriesH] at h
    by_cases hdef : selectorName = "default"
    · rw [if_pos hdef] at h
      cases h1 : mutableCompileSxPropertyH theme selectors control propName
          v target st with
      | none => rw [h1] at h; simp at h
      | some st1 =>
        rw [h1] at h
        dsimp only at h
        obtain ⟨f1, ok1⟩ := mutableCompileSxPropertyH_frame theme selectors
          control propName n v target st st1 hok ht h1
        obtain ⟨f2, ok2⟩ := mutableCompileSxEntriesH_frame theme selectors
          control propName n rest target st1 st' ok1
          (hvalOK_mono n st.length st1.length f1.1 target ht) h
        exact ⟨framePre_trans n st st1 st' f1 f2, ok2⟩
    · rw [if_neg hdef] at h
      dsimp only at h
      by_cases hf : selectorFalsy (resolveSelector selectors theme control
          selectorName) = true
      · rw [if_pos hf] at h
        exact mutableCompileSxEntriesH_frame theme selectors control propName n
          rest target st st' hok ht h
      · rw [if_neg hf] at h
        cases target with
        | sxv w => simp at h
        | s w => simp at h
        | n w => simp at h
        | ref r =>
          dsimp only at h
          simp only [hvalOK] at ht
          obtain ⟨hr, hrlen⟩ := ht
          cases hOld : objGet ((storeGet st r).getD [])
              ((resolveSelector selectors theme control selectorName).getD "") with
          | some old =>
            rw [hOld] at h
            dsimp only at h
            by_cases htr : old.truthy = true
            · rw [if_pos htr] at h
              dsimp only at h
              have holdOK : hvalOK n st.length old := by
                cases hget : storeGet st r with
                | none => rw [hget] at hOld; simp [objGet] at hOld
                | some o0 =>
                  rw [hget] at hOld
                  exact hok.2 r hr o0 hget
                    (_, old) (objGet_mem o0 _ old hOld)
              cases h1 : mutableCompileSxPropertyH theme selectors control
                  propName v old st with
              | none => rw [h1] at h; simp at h
              | some st1 =>
                rw [h1] at h
                dsimp only at h
                obtain ⟨f1, ok1⟩ := mutableCompileSxPropertyH_frame theme
                  selectors control propName n v old st st1 hok holdOK h1
                obtain ⟨f2, ok2⟩ := mutableCompileSxEntriesH_frame theme
                  selectors control propName n rest (.ref r) st1 st' ok1
                  (by
                    simp only [hvalOK]
                    exact ⟨hr, lt_of_lt_of_le hrlen f1.1⟩) h
                exact ⟨framePre_trans n st st1 st' f1 f2, ok2⟩
            · rw [if_neg htr] at h
              simp only [storeAlloc] at h
              have hokA : storeOK n (st ++ [[]]) := storeOK_alloc n st hok
              have fA : framePre n st (st ++ [[]]) :=
                framePre_alloc n st [] hok.1
              have hlenA : (st ++ [[]]).length = st.length + 1 := by simp
              have hokW : storeOK n (storeWrite (st ++ [[]]) r
                  ((resolveSelector selectors theme control selectorName).getD "")
                  (.ref st.length)) :=
                storeOK_storeWrite n (st ++ [[]]) r _ _ hokA hr
                  (by simp only [hvalOK, hlenA]; exact ⟨hok.1, by omega⟩)
              have fW : framePre n (st ++ [[]])
                  (storeWrite (st ++ [[]]) r
                    ((resolveSelector selectors theme control selectorName).getD "")
                    (.ref st.length)) :=
                framePre_storeWrite n (st ++ [[]]) r _ _ hr
              have hlenW : (storeWrite (st ++ [[]]) r
                  ((resolveSelector selectors theme control selectorName).getD "")
                  (.ref st.length)).length = st.length + 1 := by
                rw [storeWrite_length, hlenA]
              cases h1 : mutableCompileSxPropertyH theme selectors control
                  propName v (.ref st.length)
                  (storeWrite (st ++ [[]]) r
                    ((resolveSelector selectors theme control selectorName).getD "")
                    (.ref st.length)) with
              | none => rw [h1] at h; simp at h
              | some st1 =>
                rw [h1] at h
                dsimp only at h
                obtain ⟨f1, ok1⟩ := mutableCompileSxPropertyH_frame theme
                  selectors control propName n v (.ref st.length) _ st1 hokW
                  (by simp only [hvalOK, hlenW]; exact ⟨hok.1, by omega⟩) h1
                obtain ⟨f2, ok2⟩ := mutableCompileSxEntriesH_frame theme
                  selectors control propName n rest (.ref r) st1 st' ok1
                  (by
                    simp only [hvalOK]
                    refine ⟨hr, ?_⟩
                    have := f1.1
                    rw [hlenW] at this
                    omega) h
                exact ⟨framePre_trans n st st1 st'
                  (framePre_trans n st _ st1
                    (framePre_trans n st (st ++ [[]]) _ fA fW) f1) f2, ok2⟩
          | none =>
            rw [hOld] at h
            simp only [storeAlloc] at h
            have hokA : storeOK n (st ++ [[]]) := storeOK_alloc n st hok
            have fA : framePre n st (st ++ [[]]) :=
              framePre_alloc n st [] hok.1
            have hlenA : (st ++ [[]]).length = st.length + 1 := by simp
            have hokW : storeOK n (storeWrite (st ++ [[]]) r
                ((resolveSelector selectors theme control selectorName).getD "")
                (.ref st.length)) :=
              storeOK_storeWrite n (st ++ [[]]) r _ _ hokA hr
                (by simp only [hvalOK, hlenA]; exact ⟨hok.1, by omega⟩)
            have fW : framePre n (st ++ [[]])
                (storeWrite (st ++ [[]]) r
                  ((resolveSelector selectors theme control selectorName).getD "")
                  (.ref st.length)) :=
              framePre_storeWrite n (st ++ [[]]) r _ _ hr
            have hlenW : (storeWrite (st ++ [[]]) r
                ((resolveSelector selectors theme control selectorName).getD "")
                (.ref st.length)).length = st.length + 1 := by
              rw [storeWrite_length, hlenA]
            cases h1 : mutableCompileSxPropertyH theme selectors control
                propName v (.ref st.length)
                (storeWrite (st ++ [[]]) r
                  ((resolveSelector selectors theme control selectorName).getD "")
                  (.ref st.length)) with
            | none => rw [h1] at h; simp at h
            | some st1 =>
              rw [h1] at h
              dsimp only at h
              obtain ⟨f1, ok1⟩ := mutableCompileSxPropertyH_frame theme
                selectors control propName n v (.ref st.length) _ st1 hokW
                (by simp only [hvalOK, hlenW]; exact ⟨hok.1, by omega⟩) h1
              obtain ⟨f2, ok2⟩ := mutableCompileSxEntriesH_frame theme
                selectors control propName n rest (.ref r) st1 st' ok1
                (by
                  simp only [hvalOK]
                  refine ⟨hr, ?_⟩
                  have := f1.1
                  rw [hlenW] at this
                  omega) h
              exact ⟨framePre_trans n st st1 st'
                (framePre_trans n st _ st1
                  (framePre_trans n st (st ++ [[]]) _ fA fW) f1) f2, ok2⟩

end

theorem assignSpecH_ok (n r : Nat) (entries : List (String × SxValue)) :
    ∀ st : Store, storeOK n st → n ≤ r →
      framePre n st (assignSpecH r entries st) ∧
      storeOK n (assignSpecH r entries st) ∧
      (assignSpecH r entries st).length = st.length := by
  induction entries with
  | nil => intro st hok _; exact ⟨framePre_refl n st, hok, rfl⟩
  | cons kv rest ih =>
    intro st hok hr
    rw [assignSpecH]
    obtain ⟨f2, ok2, len2⟩ := ih (storeWrite st r kv.1 (.sxv kv.2))
      (storeOK_storeWrite n st r kv.1 _ hok hr trivial) hr
    exact ⟨framePre_trans n st _ _ (framePre_storeWrite n st r kv.1 _ hr) f2,
      ok2, by rw [len2, storeWrite_length]⟩

theorem assignSpecsH_ok (n r : Nat) (specs : List (List (String × SxValue))) :
    ∀ st : Store, storeOK n st → n ≤ r →
      framePre n st (assignSpecsH r specs st) ∧
      storeOK n (assignSpecsH r specs st) ∧
      (assignSpecsH r specs st).length = st.length := by
  induction specs with
  | nil => intro st hok _; exact ⟨framePre_refl n st, hok, rfl⟩
  | cons x rest ih =>
    intro st hok hr
    rw [assignSpecsH]
    obtain ⟨f1, ok1, len1⟩ := assignSpecH_ok n r x st hok hr
    obtain ⟨f2, ok2, len2⟩ := ih (assignSpecH r x st) ok1 hr
    exact ⟨framePre_trans n st _ _ f1 f2, ok2, by rw [len2, len1]⟩

theorem expandMapsH_ok (n : Nat) (mergedTheme : Theme) (r : Nat)
    (maps : SxMaps) :
    ∀ st : Store, storeOK n st → n ≤ r →
      framePre n st (expandMapsH mergedTheme r maps st) ∧
      storeOK n (expandMapsH mergedTheme r maps st) ∧
      (expandMapsH mergedTheme r maps st).length = st.length := by
  induction maps with
  | nil => intro st hok _; exact ⟨framePre_refl n st, hok, rfl⟩
  | cons km rest ih =>
    intro st hok hr
    rw [expandMapsH]
    have hdel : storeOK n
        (storeSet st r (objDelete ((storeGet st r).getD []) km.1)) := by
      refine storeOK_storeSet n st r _ hok hr ?_
      intro kv hkv
      have hkv2 := mem_objDelete _ km.1 kv hkv
      cases hget : storeGet st r with
      | none => rw [hget] at hkv2; simp at hkv2
      | some o0 =>
        rw [hget] at hkv2
        exact hok.2 r hr o0 hget kv (by simpa using hkv2)
    have fdel : framePre n st
        (storeSet st r (objDelete ((storeGet st r).getD []) km.1)) :=
      framePre_storeSet n st r _ hr
    obtain ⟨f1, ok1, len1⟩ := assignSpecH_ok n r
      (km.2 (match objGet ((storeGet st r).getD []) km.1 with
             | some (.sxv v) => v
             | _ => .undef) mergedTheme) _ hdel hr
    obtain ⟨f2, ok2, len2⟩ := ih _ ok1 hr
    refine ⟨framePre_trans n st _ _ (framePre_trans n st _ _ fdel f1) f2, ok2, ?_⟩
    rw [len2, len1]
    simp [storeSet]

theorem compileSxPropsH_ok (mergedTheme : Theme) (selectors : SxSelectors)
    (control : Option Control) (n rOut : Nat) (props : List (String × HVal)) :
    ∀ st st' : Store, storeOK n st → n ≤ rOut → rOut < st.length →
      compileSxPropsH mergedTheme selectors control rOut props st = some st' →
      framePre n st st' ∧ storeOK n st' := by
  induction props with
  | nil =>
    intro st st' hok _ _ h
    simp only [compileSxPropsH, Option.some.injEq] at h
    subst h
    exact ⟨framePre_refl n st, hok⟩
  | cons kv rest ih =>
    intro st st' hok hr hrlen h
    obtain ⟨k, hv⟩ := kv
    rw [compileSxPropsH] at h
    cases hv with
    | sxv v =>
      dsimp only at h
      cases h1 : mutableCompileSxPropertyH mergedTheme selectors control k v
          (.ref rOut) st with
      | none => rw [h1] at h; simp at h
      | some st1 =>
        rw [h1] at h
        dsimp only at h
        obtain ⟨f1, ok1⟩ := mutableCompileSxPropertyH_frame mergedTheme selectors
          control k n v (.ref rOut) st st1 hok
          (by simp only [hvalOK]; exact ⟨hr, hrlen⟩) h1
        obtain ⟨f2, ok2⟩ := ih st1 st' ok1 hr (lt_of_lt_of_le hrlen f1.1) h
        exact ⟨framePre_trans n st st1 st' f1 f2, ok2⟩
    | s w => simp at h
    | n w => simp at h
    | ref r' => simp at h

theorem mergeSxH_ok (st : Store) (sx : SxInput (List (String × SxValue))) :
    framePre st.length st (mergeSxH st sx).1 ∧
    storeOK st.length (mergeSxH st sx).1 ∧
    (mergeSxH st sx).2 = st.length ∧
    (mergeSxH st sx).1.length = st.length + 1 := by
  have hok0 : storeOK st.length st :=
    ⟨le_refl _, fun r hr o hget _ _ =>
      absurd (storeGet_lt_length st r o hget) (by omega)⟩
  have hokA := storeOK_alloc st.length st hok0
  have fA := framePre_alloc st.length st [] (le_refl _)
  obtain ⟨f1, ok1, len1⟩ := assignSpecsH_ok st.length st.length
    (ensureTruthyArray sx) (st ++ [[]]) hokA (le_refl _)
  refine ⟨framePre_trans _ st _ _ fA f1, ok1, rfl, ?_⟩
  show (assignSpecsH st.length (ensureTruthyArray sx) (st ++ [[]])).length =
    st.length + 1
  rw [len1]
  simp

/-- The frame property of the heap embedding: a successful `compileSxH` run
extends the store without touching any pre-existing index, and its result is
a freshly allocated object. -/
theorem compileSxH_frame_aux (st : Store) (options : CompileSxOptions)
    (st' : Store) (r : Nat) (h : compileSxH st options = some (st', r)) :
    framePre st.length st st' ∧ st.length ≤ r ∧ r < st'.length := by
  unfold compileSxH at h
  dsimp only at h
  obtain ⟨fM, okM, hidx, hlenM⟩ := mergeSxH_ok st options.sx
  rw [hidx] at h
  set n := st.length with hn
  cases hm : options.maps with
  | none =>
    rw [hm] at h
    dsimp only at h
    have hok2 := okM
    have f2 : framePre n st (mergeSxH st options.sx).1 := fM
    have hn2 : n ≤ (mergeSxH st options.sx).1.length := by omega
    have hokOut := storeOK_alloc n _ hok2
    have fOut : framePre n (mergeSxH st options.sx).1
        ((mergeSxH st options.sx).1 ++ [[]]) :=
      framePre_alloc n _ [] hn2
    simp only [storeAlloc] at h
    cases hp : compileSxPropsH (objAssign (objAssign []
          (options.theme.getD [])) (options.theme.getD []))
        (options.selectors.getD []) options.control
        (mergeSxH st options.sx).1.length
        ((storeGet ((mergeSxH st options.sx).1 ++ [[]]) n).getD [])
        ((mergeSxH st options.sx).1 ++ [[]]) with
    | none => rw [hp] at h; simp at h
    | some stF =>
      rw [hp] at h
      simp only [Option.some.injEq, Prod.mk.injEq] at h
      obtain ⟨rfl, rfl⟩ := h
      obtain ⟨fP, okP⟩ := compileSxPropsH_ok _ _ _ n
        (mergeSxH st options.sx).1.length _ _ _ hokOut hn2 (by simp) hp
      refine ⟨framePre_trans n st _ _ (framePre_trans n st _ _ f2 fOut) fP,
        by omega, ?_⟩
      have h1 : ((mergeSxH st options.sx).1 ++ [[]]).length ≤ stF.length := fP.1
      simp at h1
      omega
  | some maps =>
    rw [hm] at h
    dsimp only at h
    have hn2 : n ≤ (mergeSxH st options.sx).1.length := by omega
    obtain ⟨fE, okE, lenE⟩ := expandMapsH_ok n
      (objAssign (objAssign [] (options.theme.getD [])) (options.theme.getD []))
      n maps (mergeSxH st options.sx).1 okM (le_refl n)
    have hn3 : n ≤ (expandMapsH (objAssign (objAssign []
        (options.theme.getD [])) (options.theme.getD [])) n maps
        (mergeSxH st options.sx).1).length := by
      rw [lenE]; omega
    have hokOut := storeOK_alloc n _ okE
    have fOut := framePre_alloc n (expandMapsH (objAssign (objAssign []
        (options.theme.getD [])) (options.theme.getD [])) n maps
        (mergeSxH st options.sx).1) [] hn3
    simp only [storeAlloc] at h
    cases hp : compileSxPropsH (objAssign (objAssign []
          (options.theme.getD [])) (options.theme.getD []))
        (options.selectors.getD []) options.control
        (expandMapsH (objAssign (objAssign [] (options.theme.getD []))
          (options.theme.getD [])) n maps (mergeSxH st options.sx).1).length
        ((storeGet ((expandMapsH (objAssign (objAssign []
            (options.theme.getD [])) (options.theme.getD [])) n maps
            (mergeSxH st options.sx).1) ++ [[]]) n).getD [])
        ((expandMapsH (objAssign (objAssign [] (options.theme.getD []))
          (options.theme.getD [])) n maps (mergeSxH st options.sx).1) ++ [[]]) with
    | none => rw [hp] at h; simp at h
    | some stF =>
      rw [hp] at h
      simp only [Option.some.injEq, Prod.mk.injEq] at h
      obtain ⟨rfl, rfl⟩ := h
      obtain ⟨fP, okP⟩ := compileSxPropsH_ok _ _ _ n _ _ _ _ hokOut hn3 (by simp) hp
      refine ⟨framePre_trans n st _ _
        (framePre_trans n st _ _ (framePre_trans n st _ _ fM fE) fOut) fP,
        by omega, ?_⟩
      have h1 : ((expandMapsH (objAssign (objAssign []
          (options.theme.getD [])) (options.theme.getD [])) n maps
          (mergeSxH st options.sx).1) ++ [[]]).length ≤ stF.length := fP.1
      simp at h1
      omega

/-! The claims. -/

/-- C2: every built-in named state selector (active, checked, disabled,
focus, focusWithin, hover) is a three-way decision.  With no Boundary
Descriptor it returns `&:<state>`; with a descriptor carrying an explicit
boolean flag for the state it returns `&` (flag true) or `null` (flag
false); with a descriptor without an explicit flag it returns
`select(':<state>') ++ ' &'`.  For `focusWithin` the consulted state is
`focus` (the resolver is `createDefaultSelector('focus')`). -/
theorem c2_named_state_selector_three_way (name : String)
    (hmem : name ∈ builtinStateNames) (theme : Theme) :
    ∃ r, objGet defaultSelectors name = some r ∧
      r theme none = some ("&:" ++ (underlyingState name).name) ∧
      (∀ (c : Control) (b : Bool), c.getFlag (underlyingState name) = some b →
        r theme (some c) = if b then some "&" else none) ∧
      (∀ c : Control, c.getFlag (underlyingState name) = none →
        r theme (some c) =
          some (c.select (":" ++ (underlyingState name).name) ++ " &")) := by
  fin_cases hmem <;>
    refine ⟨_, rfl, rfl, fun c b hb => ?_, fun c hb => ?_⟩ <;>
    · simp [underlyingState] at hb
      simp [createDefaultSelector, underlyingState, hb]

/-- Witness for C2 at the `focusWithin` selector. -/
theorem c2_named_state_selector_three_way_witness :
    ("focusWithin" ∈ builtinStateNames) ∧
    (∃ r, objGet defaultSelectors "focusWithin" = some r ∧
      r [] none = some ("&:" ++ (underlyingState "focusWithin").name) ∧
      (∀ (c : Control) (b : Bool),
        c.getFlag (underlyingState "focusWithin") = some b →
        r [] (some c) = if b then some "&" else none) ∧
      (∀ c : Control, c.getFlag (underlyingState "focusWithin") = none →
        r [] (some c) =
          some (c.select (":" ++ (underlyingState "focusWithin").name) ++ " &"))) :=
  ⟨by decide, c2_named_state_selector_three_way "focusWithin" (by decide) []⟩

/-- C3: a selector-map branch whose resolver returns a falsy selector is
skipped entirely — compiling the selector map with the branch present equals
compiling it with the branch removed, so no key is written, no empty
sub-object is created, and no theme function nested under the branch is ever
invoked (the event traces of the two sides are identical and the branch's
value does not occur on the right-hand side). -/
theorem c3_null_selector_branch_skipped (theme : Theme)
    (selectors : SxSelectors) (control : Option Control)
    (propName selectorName : String) (v : SxValue)
    (rest : List (String × SxValue)) (target : CSSVal)
    (hdef : selectorName ≠ "default")
    (hnull : selectorFalsy (resolveSelector selectors theme control selectorName) =
      true) :
    mutableCompileSxProperty theme selectors control propName
        (.obj ((selectorName, v) :: rest)) target =
      mutableCompileSxProperty theme selectors control propName
        (.obj rest) target := by
  rw [mutableCompileSxProperty, mutableCompileSxProperty,
    mutableCompileSxEntries, if_neg hdef]
  simp only [hnull, if_true]

/-- Witness for C3: a boundary with `hover: false` suppresses the `hover`
branch of a color selector map. -/
theorem c3_null_selector_branch_skipped_witness :
    ("hover" ≠ "default") ∧
    (selectorFalsy (resolveSelector defaultSelectors []
      (some { select := fun suffix => ".c" ++ suffix, hover := some false })
      "hover") = true) ∧
    (mutableCompileSxProperty [] defaultSelectors
        (some { select := fun suffix => ".c" ++ suffix, hover := some false })
        "color" (.obj [("hover", .fn (fun _ => .s "red"))]) (.obj []) =
      mutableCompileSxProperty [] defaultSelectors
        (some { select := fun suffix => ".c" ++ suffix, hover := some false })
        "color" (.obj []) (.obj [])) :=
  ⟨by decide, rfl,
    c3_null_selector_branch_skipped [] defaultSelectors
      (some { select := fun suffix => ".c" ++ suffix, hover := some false })
      "color" "hover" (.fn (fun _ => .s "red")) [] (.obj [])
      (by decide) rfl⟩

/-- C10: a non-`default` selector key that resolves to a non-empty selector
string creates its (empty) sub-level before the nested value is examined;
when the nested value is of an ignored shape (`null`, `undefined`, an
array) the empty sub-object is still present in the output. -/
theorem c10_empty_sublevel_persists (theme : Theme) (selectors : SxSelectors)
    (control : Option Control) (propName selectorName sel : String)
    (v : SxValue) (entries : List (String × CSSVal))
    (hdef : selectorName ≠ "default")
    (hres : resolveSelector selectors theme control selectorName = some sel)
    (hne : sel ≠ "")
    (hign : ignoredShape v = true)
    (habs : objGet entries sel = none) :
    mutableCompileSxProperty theme selectors control propName
        (.obj [(selectorName, v)]) (.obj entries) =
      .ok (.obj (entries ++ [(sel, .obj [])]), []) := by
  rw [mutableCompileSxProperty, mutableCompileSxEntries, if_neg hdef, hres]
  have hfal : selectorFalsy (some sel) = false := by
    simp [selectorFalsy, hne]
  simp only [hfal, Bool.false_eq_true, if_false, Option.getD_some, habs]
  cases v <;> simp [ignoredShape] at hign <;>
    simp [mutableCompileSxProperty, mutableCompileSxEntries,
      objSet_of_get_none entries sel _ habs]

/-- Witness for C10: `sx: { color: { '&:x': null } }` compiles to
`{ '&:x': {} }`. -/
theorem c10_empty_sublevel_persists_witness :
    ("&:x" ≠ "default") ∧
    (resolveSelector defaultSelectors [] none "&:x" = some "&:x") ∧
    ("&:x" ≠ "") ∧
    (ignoredShape .nul = true) ∧
    (objGet ([] : CSSObject) "&:x" = none) ∧
    (mutableCompileSxProperty [] defaultSelectors none "color"
        (.obj [("&:x", .nul)]) (.obj []) =
      .ok (.obj [("&:x", .obj [])], [])) :=
  ⟨by decide, rfl, by decide, rfl, rfl,
    c10_empty_sublevel_persists [] defaultSelectors none "color" "&:x" "&:x"
      .nul [] (by decide) rfl (by decide) rfl rfl⟩

/-- C4: map expansion happens before selector compilation.  With
`maps: { color: (v) => ({ fill: v }) }` and
`sx: { color: { default: 'black', hover: 'red' } }` (no boundary, default
selectors) the output is exactly
`{ fill: 'black', '&:hover': { fill: 'red' } }`, and the trace shows the
single map invocation receiving the still-unresolved selector map. -/
theorem c4_map_expansion_before_selector_compilation :
    compileSx
      { maps := some [("color", fun v _ => [("fill", v)])],
        selectors := some defaultSelectors,
        sx := .one [("color", .obj [("default", .s "black"), ("hover", .s "red")])] } =
      .ok ([("fill", .s "black"), ("&:hover", .obj [("fill", .s "red")])],
        [.mapCall "color" []]) := rfl

/-- C7: merging is left-to-right last-wins over top-level keys with falsy
entries ignored.  For specifications `A` and `B` (JavaScript objects, so
their key lists are duplicate-free), `mergeSx [A, B]` holds B's value for
every key of B and A's value for every key only in A, values taken
wholesale (never deep-merged); and `mergeSx [A, null, B]` equals
`mergeSx [A, B]`. -/
theorem c7_merge_last_wins {α : Type} (A B : List (String × α)) (k : String)
    (hA : (objKeys A).Nodup) (hB : (objKeys B).Nodup) :
    objGet (mergeSx (.many [.val A, .val B])) k =
      (objGet B k).or (objGet A k) ∧
    mergeSx (SxInput.many [.val A, .falsy, .val B]) =
      mergeSx (.many [.val A, .val B]) := by
  constructor
  · have h1 : mergeSx (SxInput.many [.val A, .val B]) =
        objAssign (objAssign [] A) B := rfl
    rw [h1, objGet_objAssign B hB, objAssign_nil A hA]
  · rfl

/-- Witness for C7 at `A = {a: 1, b: 2}`, `B = {a: 3}`. -/
theorem c7_merge_last_wins_witness :
    ((objKeys [("a", 1), ("b", 2)]).Nodup ∧ (objKeys [("a", 3)]).Nodup) ∧
    (objGet (mergeSx (.many [.val [("a", 1), ("b", 2)], .val [("a", 3)]])) "a" =
      (objGet [("a", 3)] "a").or (objGet [("a", 1), ("b", 2)] "a") ∧
    mergeSx (SxInput.many [.val [("a", 1), ("b", 2)], .falsy, .val [("a", 3)]]) =
      mergeSx (.many [.val [("a", 1), ("b", 2)], .val [("a", 3)]])) :=
  ⟨⟨by decide, by decide⟩,
    c7_merge_last_wins [("a", 1), ("b", 2)] [("a", 3)] "a" (by decide) (by decide)⟩

/-- C5 counterexample: with a map table `{ m: () => ({ q: 'z' }) }` and a
merged specification that does not contain the key `m`, the compile trace
still records the invocation of `m`'s map function, and the map's returned
mapping still reaches the output — refuting "the map function is invoked
if and only if the key is present" and "when the key is absent the
specification is left unchanged". -/
theorem c5_counterexample_absent_key_map_invoked :
    compileSx { sx := .one [], maps := some [("m", fun _ _ => [("q", .s "z")])],
                selectors := some defaultSelectors } =
      .ok ([("q", .s "z")], [.mapCall "m" []]) ∧
    objGet (mergeSx (SxInput.one ([] : List (String × SxValue)))) "m" = none ∧
    ([("q", CSSVal.s "z")] : CSSObject) ≠ [] ∧
    ([Event.mapCall "m" []] : List Event) ≠ [] :=
  ⟨rfl, rfl, by simp, by simp⟩

/-- C5 amended: for every Property-Map Table key, the corresponding map
function is invoked exactly once per compile, in table order, with the
merged theme — regardless of whether the key is present in the merged
specification (an absent key makes the map receive `undefined`, and its
returned mapping is still unioned into the specification).  The map-call
events of any successful compile are exactly one per table entry. -/
theorem c5_map_invocations_follow_table (options : CompileSxOptions)
    (out : CSSObject) (tr : List Event)
    (h : compileSx options = .ok (out, tr)) :
    tr.filter Event.isMap =
      (options.maps.getD []).map
        (fun km => Event.mapCall km.1 (mergedThemeOf options)) := by
  unfold compileSx at h
  dsimp only at h
  cases hm : options.maps with
  | none =>
    rw [hm] at h
    dsimp only at h
    cases h2 : compileSxProps (mergedThemeOf options)
        (options.selectors.getD []) options.control (mergeSx options.sx)
        (.ok (.obj [], [])) with
    | error e =>
      rw [show objAssign (objAssign [] (options.theme.getD []))
            (options.theme.getD []) = mergedThemeOf options from rfl, h2] at h
      simp at h
    | ok p =>
      obtain ⟨o, evs⟩ := p
      rw [show objAssign (objAssign [] (options.theme.getD []))
            (options.theme.getD []) = mergedThemeOf options from rfl, h2] at h
      dsimp only at h
      obtain ⟨rfl, rfl⟩ : o.asObj = out ∧ evs = tr := by simpa using h
      simp [compileSxProps_filter_isMap (mergedThemeOf options)
        (options.selectors.getD []) options.control (mergeSx options.sx)
        (.obj []) [] o evs h2]
  | some maps =>
    rw [hm] at h
    dsimp only at h
    cases h2 : compileSxProps (mergedThemeOf options)
        (options.selectors.getD []) options.control
        (expandMaps (mergedThemeOf options) maps (mergeSx options.sx, [])).1
        (.ok (.obj [],
          (expandMaps (mergedThemeOf options) maps (mergeSx options.sx, [])).2)) with
    | error e =>
      rw [show objAssign (objAssign [] (options.theme.getD []))
            (options.theme.getD []) = mergedThemeOf options from rfl, h2] at h
      simp at h
    | ok p =>
      obtain ⟨o, evs⟩ := p
      rw [show objAssign (objAssign [] (options.theme.getD []))
            (options.theme.getD []) = mergedThemeOf options from rfl, h2] at h
      dsimp only at h
      obtain ⟨rfl, rfl⟩ : o.asObj = out ∧ evs = tr := by simpa using h
      rw [compileSxProps_filter_isMap (mergedThemeOf options)
        (options.selectors.getD []) options.control _ (.obj [])
        (expandMaps (mergedThemeOf options) maps (mergeSx options.sx, [])).2
        o evs h2, expandMaps_trace]
      rw [List.nil_append, List.filter_map]
      congr 1
      exact List.filter_eq_self.mpr (fun a _ => rfl)

/-- Witness for C5 amended, at the input of the C4 law. -/
theorem c5_map_invocations_follow_table_witness :
    compileSx
        { maps := some [("color", fun v _ => [("fill", v)])],
          selectors := some defaultSelectors,
          sx := .one [("color", .obj [("default", .s "black"), ("hover", .s "red")])] } =
      .ok ([("fill", .s "black"), ("&:hover", .obj [("fill", .s "red")])],
        [.mapCall "color" []]) ∧
    ([Event.mapCall "color" []] : List Event).filter Event.isMap =
      ((some [("color", fun v _ => ([("fill", v)] : List (String × SxValue)))]
          : Option SxMaps).getD []).map
        (fun km => Event.mapCall km.1 (mergedThemeOf
          { maps := some [("color", fun v _ => [("fill", v)])],
            selectors := some defaultSelectors,
            sx := .one [("color",
              .obj [("default", .s "black"), ("hover", .s "red")])] })) :=
  ⟨rfl,
    c5_map_invocations_follow_table
      { maps := some [("color", fun v _ => [("fill", v)])],
        selectors := some defaultSelectors,
        sx := .one [("color", .obj [("default", .s "black"), ("hover", .s "red")])] }
      [("fill", .s "black"), ("&:hover", .obj [("fill", .s "red")])]
      [.mapCall "color" []] rfl⟩

/-- C6 counterexample: with context theme `{a: 1, b: 2}` and explicit
override `{a: 3}`, the theme function is invoked with `{a: 3}` — the
override replaces the context theme wholesale (`props.theme || theme`) —
and not with the per-key shallow merge `{a: 3, b: 2}` the claim
describes. -/
theorem c6_counterexample_theme_replaced_not_merged :
    createUseSx defaultSelectors none (some [("a", .n 1), ("b", .n 2)])
        { sx := .one [("p", .fn (fun th => (objGet th "b").getD (.s "missing")))],
          theme := some [("a", .n 3)] } =
      .ok ([("p", .s "missing")], [.fnCall "p" [("a", JsLit.n 3)]]) ∧
    objAssign [("a", JsLit.n 1), ("b", JsLit.n 2)] [("a", JsLit.n 3)] =
      [("a", JsLit.n 3), ("b", JsLit.n 2)] ∧
    ([("a", JsLit.n 3)] : Theme) ≠ [("a", JsLit.n 3), ("b", JsLit.n 2)] :=
  ⟨rfl, rfl, by decide⟩

/-- C6 amended: a property value given as a function is invoked exactly once
and its returned literal written verbatim, but the effective theme it
receives is the caller's explicit override when supplied and otherwise the
context theme (`props.theme || theme` — wholesale replacement, not a
per-key shallow merge). -/
theorem c6_theme_function_effective_theme (contextTheme override : Option Theme)
    (p : String) (f : Theme → JsLit)
    (h : (objKeys ((override <|> contextTheme).getD [])).Nodup) :
    createUseSx defaultSelectors none contextTheme
        { sx := .one [(p, .fn f)], theme := override } =
      .ok ([(p, (f ((override <|> contextTheme).getD [])).toCSS)],
        [.fnCall p ((override <|> contextTheme).getD [])]) := by
  have hnil : objAssign [] ((override <|> contextTheme).getD []) =
      (override <|> contextTheme).getD [] := objAssign_nil _ h
  have hself : objAssign ((override <|> contextTheme).getD [])
      ((override <|> contextTheme).getD []) =
      (override <|> contextTheme).getD [] := objAssign_self _ h
  have base : createUseSx defaultSelectors none contextTheme
      { sx := .one [(p, .fn f)], theme := override } =
    .ok ([(p, (f (objAssign (objAssign [] ((override <|> contextTheme).getD []))
          ((override <|> contextTheme).getD []))).toCSS)],
      [.fnCall p (objAssign (objAssign [] ((override <|> contextTheme).getD []))
          ((override <|> contextTheme).getD []))]) := rfl
  rw [base, hnil, hself]

/-- Witness for C6 amended: no override, context theme `{a: 1}`. -/
theorem c6_theme_function_effective_theme_witness :
    ((objKeys ((none <|> some [("a", JsLit.n 1)]).getD [])).Nodup) ∧
    createUseSx defaultSelectors none (some [("a", .n 1)])
        { sx := .one [("color",
            .fn (fun th => (objGet th "a").getD (.s "?")))],
          theme := none } =
      .ok ([("color",
          ((fun th => (objGet th "a").getD (JsLit.s "?"))
            ((none <|> some [("a", JsLit.n 1)]).getD [])).toCSS)],
        [.fnCall "color" ((none <|> some [("a", JsLit.n 1)]).getD [])]) :=
  ⟨by decide,
    c6_theme_function_effective_theme (some [("a", .n 1)]) none "color"
      (fun th => (objGet th "a").getD (.s "?")) (by decide)⟩

/-- C1: for a property `P` with value `{ default: X, hover: Y }` (literals)
and no Boundary Descriptor, the compiled output is exactly
`{ P: X, '&:hover': { P: Y } }`; and, in general, a `"default"` key recurses
into the same output level — it never creates a new nesting level.  (The
side condition `P ≠ "&:hover"` keeps the property name from colliding with
the selector string produced by the `hover` branch.) -/
theorem c1_default_selector_law (P : String) (X Y : JsLit)
    (hP : P ≠ "&:hover") :
    compileSx { sx := .one [(P, .obj [("default", X.toSx), ("hover", Y.toSx)])],
                selectors := some defaultSelectors } =
      .ok ([(P, X.toCSS), ("&:hover", .obj [(P, Y.toCSS)])], []) ∧
    (∀ (theme : Theme) (selectors : SxSelectors) (control : Option Control)
        (propName : String) (v : SxValue) (target : CSSVal),
      mutableCompileSxProperty theme selectors control propName
          (.obj [("default", v)]) target =
        mutableCompileSxProperty theme selectors control propName v target) := by
  constructor
  · have hne : ¬("&:hover" = P) := Ne.symm hP
    cases X <;> cases Y <;>
      simp [compileSx, mergeSx, ensureTruthyArray, objAssign, objSet,
        JsLit.toSx, JsLit.toCSS, compileSxProps, mutableCompileSxProperty,
        mutableCompileSxEntries, resolveSelector, objGet, defaultSelectors,
        createDefaultSelector, selectorFalsy, hne, CSSVal.asObj,
        show ("&:" ++ ControlStateKey.hover.name) = "&:hover" from rfl]
  · intro theme selectors control propName v target
    rw [mutableCompileSxProperty, mutableCompileSxEntries, if_pos rfl]
    cases h1 : mutableCompileSxProperty theme selectors control propName v target with
    | error e => rfl
    | ok p =>
      obtain ⟨t1, e1⟩ := p
      dsimp only
      rw [mutableCompileSxEntries]
      simp

/-- Witness for C1 at `P = borderColor`, `X = 'black'`, `Y = 'red'`. -/
theorem c1_default_selector_law_witness :
    ("borderColor" ≠ "&:hover") ∧
    (compileSx
        { sx := .one [("borderColor", .obj
            [("default", (JsLit.s "black").toSx), ("hover", (JsLit.s "red").toSx)])],
          selectors := some defaultSelectors } =
      .ok ([("borderColor", (JsLit.s "black").toCSS),
            ("&:hover", .obj [("borderColor", (JsLit.s "red").toCSS)])], []) ∧
    (∀ (theme : Theme) (selectors : SxSelectors) (control : Option Control)
        (propName : String) (v : SxValue) (target : CSSVal),
      mutableCompileSxProperty theme selectors control propName
          (.obj [("default", v)]) target =
        mutableCompileSxProperty theme selectors control propName v target)) :=
  ⟨by decide, c1_default_selector_law "borderColor" (.s "black") (.s "red") (by decide)⟩

/-- C8: neither `mergeSx` nor the compile orchestrator mutates any
caller-supplied input.  In the heap embedding the initial store is the
caller's entire heap — wherever the caller keeps its style specifications,
theme and Boundary Descriptor — and a successful compile leaves every
pre-existing index unchanged: all deletions and unions of map expansion hit
only the freshly allocated merged copy, and all output writes hit only
freshly allocated output objects.  The same holds for `mergeSx` alone. -/
theorem c8_no_caller_object_mutated (st : Store) (options : CompileSxOptions)
    (st' : Store) (r : Nat) (h : compileSxH st options = some (st', r)) :
    (∀ i, i < st.length → storeGet st' i = storeGet st i) ∧
    (∀ (st0 : Store) (sx : SxInput (List (String × SxValue))) (i : Nat),
      i < st0.length → storeGet (mergeSxH st0 sx).1 i = storeGet st0 i) := by
  refine ⟨(compileSxH_frame_aux st options st' r h).1.2, ?_⟩
  intro st0 sx i hi
  exact (mergeSxH_ok st0 sx).1.2 i hi

/-- Witness for C8: a compile over a one-object caller heap leaves that
object untouched. -/
theorem c8_no_caller_object_mutated_witness :
    ∃ p : Store × Nat,
      compileSxH [[("keep", HVal.s "x")]]
          { sx := .one [("color",
              .obj [("default", .s "black"), ("hover", .s "red")])],
            selectors := some defaultSelectors } = some p ∧
      ((∀ i, i < ([[("keep", HVal.s "x")]] : Store).length →
          storeGet p.1 i = storeGet [[("keep", HVal.s "x")]] i) ∧
        (∀ (st0 : Store) (sx : SxInput (List (String × SxValue))) (i : Nat),
          i < st0.length → storeGet (mergeSxH st0 sx).1 i = storeGet st0 i)) :=
  ⟨_, rfl, c8_no_caller_object_mutated [[("keep", HVal.s "x")]]
    { sx := .one [("color", .obj [("default", .s "black"), ("hover", .s "red")])],
      selectors := some defaultSelectors } _ _ rfl⟩

/-- C9: compilation is deterministic and allocates a fresh output each call.
In the pure embedding (caller-supplied functions are values, hence pure) two
compiles of the same options are definitionally the same structurally equal
output; in the heap embedding two back-to-back runs return distinct (fresh)
output objects, and the second run leaves the first run's output object
untouched — there is no shared mutable state between invocations. -/
theorem c9_compilation_deterministic (options : CompileSxOptions)
    (st st1 st2 : Store) (r1 r2 : Nat)
    (h1 : compileSxH st options = some (st1, r1))
    (h2 : compileSxH st1 options = some (st2, r2)) :
    compileSx options = compileSx options ∧ r1 ≠ r2 ∧
      storeGet st2 r1 = storeGet st1 r1 := by
  obtain ⟨f1, hle1, hlt1⟩ := compileSxH_frame_aux st options st1 r1 h1
  obtain ⟨f2, hle2, hlt2⟩ := compileSxH_frame_aux st1 options st2 r2 h2
  exact ⟨rfl, by omega, f2.2 r1 hlt1⟩

/-- Witness for C9: two back-to-back heap runs of the same compile. -/
theorem c9_compilation_deterministic_witness :
    ∃ p1 p2 : Store × Nat,
      compileSxH [[("keep", HVal.s "x")]]
          { sx := .one [("color",
              .obj [("default", .s "black"), ("hover", .s "red")])],
            selectors := some defaultSelectors } = some p1 ∧
      compileSxH p1.1
          { sx := .one [("color",
              .obj [("default", .s "black"), ("hover", .s "red")])],
            selectors := some defaultSelectors } = some p2 ∧
      (compileSx
          { sx := .one [("color",
              .obj [("default", .s "black"), ("hover", .s "red")])],
            selectors := some defaultSelectors } =
        compileSx
          { sx := .one [("color",
              .obj [("default", .s "black"), ("hover", .s "red")])],
            selectors := some defaultSelectors } ∧
        p1.2 ≠ p2.2 ∧ storeGet p2.1 p1.2 = storeGet p1.1 p1.2) :=
  ⟨_, _, rfl, rfl,
    c9_compilation_deterministic
      { sx := .one [("color", .obj [("default", .s "black"), ("hover", .s "red")])],
        selectors := some defaultSelectors }
      [[("keep", HVal.s "x")]] _ _ _ _ rfl rfl⟩

end UseSx
